import Mathlib

/-!
Shallow embedding of the AIDE log parser (`src/parser.py`) and proofs about it.

A report is modelled as the list of its lines, each line a `List Char`
(exactly what Python's `readlines` hands to `aideJson`).  The parser either
returns `None` (modelled `.ok none`), returns the populated data dictionary
(modelled `.ok (some d)`), or lets an exception escape (modelled `.raised`).
The wall-clock value written into `data["timestamp"]` is not parsed from the
input, so the model only records whether the field was stamped.
-/

namespace Aide

/-- Outcome of running a piece of Python code: a value, or an uncaught exception. -/
inductive PResult (α : Type) where
  | raised : PResult α
  | ok : α → PResult α
deriving DecidableEq

/-- ASCII fragment of Python's whitespace class (used by `str.strip` and `\s`). -/
def isPyWs (c : Char) : Bool :=
  c = ' ' || c = '\t' || c = '\n' || c = '\r' || c.toNat = 11 || c.toNat = 12

/-- ASCII decimal digit, Python's `\d`. -/
def isDigitC (c : Char) : Bool :=
  48 ≤ c.toNat && c.toNat ≤ 57

/-- The attribute-flag characters of the entry regex class `[+\-.]`. -/
def isFlagC (c : Char) : Bool :=
  c = '+' || c = '-' || c = '.'

/-- Python `str.strip()`: drop whitespace from both ends. -/
def trimL (l : List Char) : List Char :=
  ((l.dropWhile isPyWs).reverse.dropWhile isPyWs).reverse

/-- If `pat` is an initial segment of `l`, return the remainder. -/
def dropPre : List Char → List Char → Option (List Char)
  | [], l => some l
  | _ :: _, [] => none
  | p :: ps, c :: cs => if c = p then dropPre ps cs else none

/-- Python `str.startswith(pat)`. -/
def startsWithL (pat l : List Char) : Bool :=
  (dropPre pat l).isSome

/-- Python `pat in l` (substring containment). -/
def containsSub (pat : List Char) : List Char → Bool
  | [] => startsWithL pat []
  | c :: r => startsWithL pat (c :: r) || containsSub pat r

/-- Numeric value of a digit string, Python `int`. -/
def digitsVal (l : List Char) : Nat :=
  l.foldl (fun a c => 10 * a + (c.toNat - 48)) 0

/-- Match the regex fragment `\s+(\d+)` at the head of `l`: at least one
whitespace character, then at least one digit; returns the value of the
maximal digit run (the capture of the greedy `\d+`). -/
def wsDigits : List Char → Option Nat
  | [] => none
  | c :: r =>
    if isPyWs c then
      match (r.dropWhile isPyWs).takeWhile isDigitC with
      | [] => none
      | d :: ds => some (digitsVal (d :: ds))
    else none

/-- Match `label ++ ":"` followed by `\s+(\d+)` at the head of `l`. -/
def labelValAt (label l : List Char) : Option Nat :=
  match dropPre (label ++ [':']) l with
  | none => none
  | some rest => wsDigits rest

/-- Python `re.search(f"\s*{label}:\s+(\d+)", sl)`: scan for the leftmost
occurrence of `label:` followed by whitespace and digits.  The leading `\s*`
of the source pattern does not change which occurrence is matched (the label
starts with a non-whitespace character), so it is dropped here. -/
def searchSummary (label : List Char) : List Char → Option Nat
  | [] => labelValAt label []
  | c :: r =>
    match labelValAt label (c :: r) with
    | some v => some v
    | none => searchSummary label r

def startTs : List Char := "Start timestamp:".data
def endTs : List Char := "End timestamp:".data
def bannerDiff : List Char := "AIDE found differences between database and filesystem!!".data
def bannerVer : List Char := "AIDE, version".data
def lblTotal : List Char := "Total number of entries".data
def lblAdded : List Char := "Added entries".data
def lblRemoved : List Char := "Removed entries".data
def lblChanged : List Char := "Changed entries".data
def hdrAdded : List Char := "Added entries:".data
def hdrRemoved : List Char := "Removed entries:".data
def hdrChanged : List Char := "Changed entries:".data

def MAX_LENGTH : Nat := 100

/-- `truncateString` from the source:
`value[:max_length - 3] + '...' if len(value) > max_length else value`.
The inner `if` reproduces Python's negative-index slicing in the (unused in
the repository) case `max_length < 3`. -/
def truncateString (value : List Char) (max_length : Nat := MAX_LENGTH) : List Char :=
  if value.length > max_length then
    value.take (if 3 ≤ max_length then max_length - 3 else value.length - (3 - max_length))
      ++ "...".data
  else value

/-- The JSON data dictionary built by `aideJson`.  `timestamp` records whether
the field was stamped with the capture-time string; the four summary fields are
`none` exactly when the corresponding dictionary key was never assigned. -/
structure Data where
  timestamp : Bool
  error_severity : List Char
  application_name : List Char
  backend_type : List Char
  added_entries : List (List Char)
  removed_entries : List (List Char)
  changed_entries : List (List Char)
  message : List Char
  total_entries : Option Nat
  added_summary : Option Nat
  removed_summary : Option Nat
  changed_summary : Option Nat
deriving DecidableEq

/-- The dictionary literal the parser starts from. -/
def initData : Data where
  timestamp := false
  error_severity := "LOG".data
  application_name := "AIDE".data
  backend_type := "log_analyzer".data
  added_entries := []
  removed_entries := []
  changed_entries := []
  message := "AIDE Log Analysis".data
  total_entries := none
  added_summary := none
  removed_summary := none
  changed_summary := none

/-- The section state of the single-pass state machine. -/
inductive SState where
  | initial
  | added
  | removed
  | changed
deriving DecidableEq

/-- Names of the four summary fields of `Data`. -/
inductive SKey where
  | total
  | addedS
  | removedS
  | changedS
deriving DecidableEq

def getKey (d : Data) : SKey → Option Nat
  | SKey.total => d.total_entries
  | SKey.addedS => d.added_summary
  | SKey.removedS => d.removed_summary
  | SKey.changedS => d.changed_summary

def setKey (d : Data) : SKey → Nat → Data
  | SKey.total, v => { d with total_entries := some v }
  | SKey.addedS, v => { d with added_summary := some v }
  | SKey.removedS, v => { d with removed_summary := some v }
  | SKey.changedS, v => { d with changed_summary := some v }

/-- The `summary_patterns` loop with its `break`: the first label (in the
dictionary order Total, Added, Removed, Changed) whose pattern matches the
stripped line, together with the captured integer. -/
def searchFirst (sl : List Char) : Option (SKey × Nat) :=
  match searchSummary lblTotal sl with
  | some v => some (SKey.total, v)
  | none =>
    match searchSummary lblAdded sl with
    | some v => some (SKey.addedS, v)
    | none =>
      match searchSummary lblRemoved sl with
      | some v => some (SKey.removedS, v)
      | none =>
        match searchSummary lblChanged sl with
        | some v => some (SKey.changedS, v)
        | none => none

/-- Effect of the summary loop on the data dictionary for one stripped line. -/
def applySummaries (d : Data) (sl : List Char) : Data :=
  match searchFirst sl with
  | some (k, v) => setKey d k v
  | none => d

/-- Which summary field (if any) one raw line assigns: lines containing
`Start timestamp:` are consumed before the summary loop runs. -/
def summaryUpdate (line : List Char) : Option (SKey × Nat) :=
  if containsSub startTs line then none else searchFirst (trimL line)

/-- Regex fragment `\s*\/` at the head of the list. -/
def wsSlash : List Char → Bool
  | [] => false
  | c :: r => if isPyWs c then wsSlash r else c = '/'

/-- Regex fragment `:\s*\/` at the head of the list. -/
def colonWsSlash : List Char → Bool
  | ':' :: r => wsSlash r
  | _ => false

/-- Regex fragment `.*:\s*\/`: some suffix starts with `:\s*\/`. -/
def anyColonWsSlash : List Char → Bool
  | [] => false
  | c :: r => colonWsSlash (c :: r) || anyColonWsSlash r

/-- After at least one flag character has been consumed: the rest of
`[+\-.]+:\s*\/` (more flags, then `:\s*\/`). -/
def flagsRest : List Char → Bool
  | [] => false
  | c :: r => if isFlagC c then flagsRest r else colonWsSlash (c :: r)

/-- Regex fragment `[+\-.]+:\s*\/` at the head of the list. -/
def flagsColon : List Char → Bool
  | [] => false
  | c :: r => isFlagC c && flagsRest r

/-- The alternation `(\s+.*|\s*[+\-.]+):\s*\/` after the type tag. -/
def afterTag (rest : List Char) : Bool :=
  (match rest with
   | [] => false
   | c :: r => isPyWs c && anyColonWsSlash r)
  || flagsColon (rest.dropWhile isPyWs)

/-- `re.match(r'^\s*[fd](\s+.*|\s*[+\-.]+):\s*\/', s)` as a Boolean:
does some decomposition of `s` match the anchored pattern? -/
def entryMatch (s : List Char) : Bool :=
  match s.dropWhile isPyWs with
  | [] => false
  | c :: rest => (c = 'f' || c = 'd') && afterTag rest

/-- Python `s.split(": ", 1)[1]`: the part after the first occurrence of the
two-character separator `": "`; `none` models the `IndexError` raised when the
separator is absent. -/
def splitColonSpace : List Char → Option (List Char)
  | ':' :: ' ' :: r => some r
  | _ :: r => splitColonSpace r
  | [] => none

/-- One iteration of the `for line in lines` loop of `aideJson`, acting on the
section state and the data dictionary.  `.raised` models the uncaught
`IndexError` from `stripped_line.split(": ", 1)[1]`. -/
def stepLine (st : SState) (d : Data) (line : List Char) : PResult (SState × Data) :=
  if containsSub startTs line then
    .ok (st, { d with timestamp := true })
  else if containsSub hdrAdded (trimL line) then
    .ok (SState.added, applySummaries d (trimL line))
  else if containsSub hdrRemoved (trimL line) then
    .ok (SState.removed, applySummaries d (trimL line))
  else if containsSub hdrChanged (trimL line) then
    .ok (SState.changed, applySummaries d (trimL line))
  else if entryMatch (trimL line) then
    match splitColonSpace (trimL line) with
    | none => .raised
    | some path =>
      match st with
      | SState.added =>
        .ok (st, { applySummaries d (trimL line) with
          added_entries := (applySummaries d (trimL line)).added_entries ++ [truncateString path] })
      | SState.removed =>
        .ok (st, { applySummaries d (trimL line) with
          removed_entries := (applySummaries d (trimL line)).removed_entries ++ [truncateString path] })
      | SState.changed =>
        .ok (st, { applySummaries d (trimL line) with
          changed_entries := (applySummaries d (trimL line)).changed_entries ++ [truncateString path] })
      | SState.initial =>
        .ok (st, applySummaries d (trimL line))
  else
    .ok (st, applySummaries d (trimL line))

/-- The whole `for line in lines` loop. -/
def runLines : SState → Data → List (List Char) → PResult (SState × Data)
  | st, d, [] => .ok (st, d)
  | st, d, l :: ls =>
    match stepLine st d l with
    | .raised => .raised
    | .ok (st', d') => runLines st' d' ls

/-- `aideJson` on the line list of the report (the file has already been
read): the structural checks, then the main pass.  `.ok none` is Python's
`return None`, `.ok (some d)` a returned dictionary, `.raised` an uncaught
exception. -/
def aideJson (lines : List (List Char)) : PResult (Option Data) :=
  match lines with
  | [] => .ok none
  | first :: rest =>
    if startsWithL startTs first = false then .ok none
    else if startsWithL endTs (rest.getLastD first) = false then .ok none
    else
      match rest with
      | [] => .ok none
      | second :: rest2 =>
        if containsSub bannerDiff second = false ∧ containsSub bannerVer second = false then
          .ok none
        else
          match runLines SState.initial initData (first :: second :: rest2) with
          | .raised => .raised
          | .ok (_, d) => .ok (some d)

/-- The serialized JSON object produced by `json.dumps` contains exactly the
keys of the dictionary: the eight always-present keys, plus each summary key
that was assigned during the pass.  A key absent from the dictionary is
omitted from the output entirely (it is never emitted with a `null` value). -/
def jsonHasKey (d : Data) (k : String) : Bool :=
  if k = "timestamp" ∨ k = "error_severity" ∨ k = "application_name" ∨ k = "backend_type" ∨
     k = "added_entries" ∨ k = "removed_entries" ∨ k = "changed_entries" ∨ k = "message" then
    true
  else if k = "total_entries" then d.total_entries.isSome
  else if k = "added_summary" then d.added_summary.isSome
  else if k = "removed_summary" then d.removed_summary.isSome
  else if k = "changed_summary" then d.changed_summary.isSome
  else false

/-- JSON key name of each summary field. -/
def keyName : SKey → String
  | SKey.total => "total_entries"
  | SKey.addedS => "added_summary"
  | SKey.removedS => "removed_summary"
  | SKey.changedS => "changed_summary"

end Aide

namespace Aide

lemma ok_inj {α : Type} {a b : α} (h : (PResult.ok a : PResult α) = PResult.ok b) : a = b := by
  injection h

/-- The update one raw line makes to the summary field `k`. -/
def updOne (k : SKey) (cur : Option Nat) (line : List Char) : Option Nat :=
  match summaryUpdate line with
  | some (k', v) => if k' = k then some v else cur
  | none => cur

/-- Value of the summary field `k` after processing a list of lines. -/
def lastVal (k : SKey) (ls : List (List Char)) (cur : Option Nat) : Option Nat :=
  ls.foldl (updOne k) cur

lemma lastVal_cons (k : SKey) (l : List Char) (ls : List (List Char)) (cur : Option Nat) :
    lastVal k (l :: ls) cur = lastVal k ls (updOne k cur l) := rfl

lemma lastVal_append (k : SKey) (xs ys : List (List Char)) (cur : Option Nat) :
    lastVal k (xs ++ ys) cur = lastVal k ys (lastVal k xs cur) := by
  simp [lastVal]

lemma getKey_setKey (d : Data) (k' k : SKey) (v : Nat) :
    getKey (setKey d k' v) k = if k' = k then some v else getKey d k := by
  cases k' <;> cases k <;> simp [getKey, setKey]

lemma getKey_applySummaries (d : Data) (sl : List Char) (k : SKey) :
    getKey (applySummaries d sl) k =
      match searchFirst sl with
      | some (k', v) => if k' = k then some v else getKey d k
      | none => getKey d k := by
  unfold applySummaries
  cases searchFirst sl with
  | none => rfl
  | some kv =>
    obtain ⟨k', v⟩ := kv
    exact getKey_setKey d k' k v

lemma setKey_entries (d : Data) (k : SKey) (v : Nat) :
    (setKey d k v).added_entries = d.added_entries ∧
    (setKey d k v).removed_entries = d.removed_entries ∧
    (setKey d k v).changed_entries = d.changed_entries := by
  cases k <;> simp [setKey]

lemma applySummaries_entries (d : Data) (sl : List Char) :
    (applySummaries d sl).added_entries = d.added_entries ∧
    (applySummaries d sl).removed_entries = d.removed_entries ∧
    (applySummaries d sl).changed_entries = d.changed_entries := by
  unfold applySummaries
  cases searchFirst sl with
  | none => exact ⟨rfl, rfl, rfl⟩
  | some kv =>
    obtain ⟨k, v⟩ := kv
    exact setKey_entries d k v

lemma getKey_set_added (d : Data) (l : List (List Char)) (k : SKey) :
    getKey { d with added_entries := l } k = getKey d k := by
  cases k <;> rfl

lemma getKey_set_removed (d : Data) (l : List (List Char)) (k : SKey) :
    getKey { d with removed_entries := l } k = getKey d k := by
  cases k <;> rfl

lemma getKey_set_changed (d : Data) (l : List (List Char)) (k : SKey) :
    getKey { d with changed_entries := l } k = getKey d k := by
  cases k <;> rfl

lemma step_state (st : SState) (d : Data) (line : List Char) (st' : SState) (d' : Data)
    (h : stepLine st d line = .ok (st', d')) :
    st' = if containsSub startTs line then st
      else if containsSub hdrAdded (trimL line) then SState.added
      else if containsSub hdrRemoved (trimL line) then SState.removed
      else if containsSub hdrChanged (trimL line) then SState.changed
      else st := by
  unfold stepLine at h
  by_cases c0 : containsSub startTs line = true
  · rw [if_pos c0] at h
    rw [if_pos c0]
    have hp := ok_inj h
    injection hp with h1 h2
    exact h1.symm
  · rw [if_neg c0] at h
    rw [if_neg c0]
    by_cases c1 : containsSub hdrAdded (trimL line) = true
    · rw [if_pos c1] at h
      rw [if_pos c1]
      have hp := ok_inj h
      injection hp with h1 h2
      exact h1.symm
    · rw [if_neg c1] at h
      rw [if_neg c1]
      by_cases c2 : containsSub hdrRemoved (trimL line) = true
      · rw [if_pos c2] at h
        rw [if_pos c2]
        have hp := ok_inj h
        injection hp with h1 h2
        exact h1.symm
      · rw [if_neg c2] at h
        rw [if_neg c2]
        by_cases c3 : containsSub hdrChanged (trimL line) = true
        · rw [if_pos c3] at h
          rw [if_pos c3]
          have hp := ok_inj h
          injection hp with h1 h2
          exact h1.symm
        · rw [if_neg c3] at h
          rw [if_neg c3]
          by_cases c4 : entryMatch (trimL line) = true
          · rw [if_pos c4] at h
            cases hsp : splitColonSpace (trimL line) with
            | none =>
              rw [hsp] at h
              exact (PResult.noConfusion h)
            | some path =>
              rw [hsp] at h
              cases st with
              | initial =>
                have hp := ok_inj h
                injection hp with h1 h2
                exact h1.symm
              | added =>
                have hp := ok_inj h
                injection hp with h1 h2
                exact h1.symm
              | removed =>
                have hp := ok_inj h
                injection hp with h1 h2
                exact h1.symm
              | changed =>
                have hp := ok_inj h
                injection hp with h1 h2
                exact h1.symm
          · rw [if_neg c4] at h
            have hp := ok_inj h
            injection hp with h1 h2
            exact h1.symm

lemma getKey_step (st : SState) (d : Data) (line : List Char) (st' : SState) (d' : Data) (k : SKey)
    (h : stepLine st d line = .ok (st', d')) :
    getKey d' k = updOne k (getKey d k) line := by
  unfold stepLine at h
  unfold updOne summaryUpdate
  have base : getKey (applySummaries d (trimL line)) k =
      match searchFirst (trimL line) with
      | some (k', v) => if k' = k then some v else getKey d k
      | none => getKey d k := getKey_applySummaries d (trimL line) k
  by_cases c0 : containsSub startTs line = true
  · rw [if_pos c0] at h
    rw [if_pos c0]
    have hp := ok_inj h
    injection hp with h1 h2
    subst h2
    cases k <;> rfl
  · rw [if_neg c0] at h
    rw [if_neg c0]
    by_cases c1 : containsSub hdrAdded (trimL line) = true
    · rw [if_pos c1] at h
      have hp := ok_inj h
      injection hp with h1 h2
      subst h2
      exact base
    · rw [if_neg c1] at h
      by_cases c2 : containsSub hdrRemoved (trimL line) = true
      · rw [if_pos c2] at h
        have hp := ok_inj h
        injection hp with h1 h2
        subst h2
        exact base
      · rw [if_neg c2] at h
        by_cases c3 : containsSub hdrChanged (trimL line) = true
        · rw [if_pos c3] at h
          have hp := ok_inj h
          injection hp with h1 h2
          subst h2
          exact base
        · rw [if_neg c3] at h
          by_cases c4 : entryMatch (trimL line) = true
          · rw [if_pos c4] at h
            cases hsp : splitColonSpace (trimL line) with
            | none =>
              rw [hsp] at h
              exact (PResult.noConfusion h)
            | some path =>
              rw [hsp] at h
              cases st with
              | initial =>
                have hp := ok_inj h
                injection hp with h1 h2
                subst h2
                exact base
              | added =>
                have hp := ok_inj h
                injection hp with h1 h2
                subst h2
                rw [getKey_set_added]
                exact base
              | removed =>
                have hp := ok_inj h
                injection hp with h1 h2
                subst h2
                rw [getKey_set_removed]
                exact base
              | changed =>
                have hp := ok_inj h
                injection hp with h1 h2
                subst h2
                rw [getKey_set_changed]
                exact base
          · rw [if_neg c4] at h
            have hp := ok_inj h
            injection hp with h1 h2
            subst h2
            exact base

end Aide

namespace Aide

lemma runLines_cons (st : SState) (d : Data) (l : List Char) (ls : List (List Char)) :
    runLines st d (l :: ls) = match stepLine st d l with
      | .raised => .raised
      | .ok (st', d') => runLines st' d' ls := rfl

lemma getKey_run (st : SState) (d : Data) (ls : List (List Char)) (st' : SState) (d' : Data)
    (k : SKey) (h : runLines st d ls = .ok (st', d')) :
    getKey d' k = lastVal k ls (getKey d k) := by
  induction ls generalizing st d with
  | nil =>
    have h' : (PResult.ok (st, d) : PResult (SState × Data)) = .ok (st', d') := h
    have hp := ok_inj h'
    injection hp with h1 h2
    subst h2
    rfl
  | cons l ls ih =>
    cases hs : stepLine st d l with
    | raised =>
      rw [runLines_cons, hs] at h
      exact (PResult.noConfusion h)
    | ok pr =>
      obtain ⟨st₁, d₁⟩ := pr
      rw [runLines_cons, hs] at h
      have h' : runLines st₁ d₁ ls = .ok (st', d') := h
      have hk := getKey_step st d l st₁ d₁ k hs
      rw [lastVal_cons, ← hk]
      exact ih st₁ d₁ h'

lemma step_entries (st : SState) (d : Data) (line : List Char) (st' : SState) (d' : Data)
    (h : stepLine st d line = .ok (st', d')) :
    List.IsPrefix d.added_entries d'.added_entries ∧
    List.IsPrefix d.removed_entries d'.removed_entries ∧
    List.IsPrefix d.changed_entries d'.changed_entries := by
  have hae := applySummaries_entries d (trimL line)
  unfold stepLine at h
  by_cases c0 : containsSub startTs line = true
  · rw [if_pos c0] at h
    have hp := ok_inj h
    injection hp with h1 h2
    subst h2
    exact ⟨List.prefix_refl _, List.prefix_refl _, List.prefix_refl _⟩
  · rw [if_neg c0] at h
    by_cases c1 : containsSub hdrAdded (trimL line) = true
    · rw [if_pos c1] at h
      have hp := ok_inj h
      injection hp with h1 h2
      subst h2
      rw [hae.1, hae.2.1, hae.2.2]
      exact ⟨List.prefix_refl _, List.prefix_refl _, List.prefix_refl _⟩
    · rw [if_neg c1] at h
      by_cases c2 : containsSub hdrRemoved (trimL line) = true
      · rw [if_pos c2] at h
        have hp := ok_inj h
        injection hp with h1 h2
        subst h2
        rw [hae.1, hae.2.1, hae.2.2]
        exact ⟨List.prefix_refl _, List.prefix_refl _, List.prefix_refl _⟩
      · rw [if_neg c2] at h
        by_cases c3 : containsSub hdrChanged (trimL line) = true
        · rw [if_pos c3] at h
          have hp := ok_inj h
          injection hp with h1 h2
          subst h2
          rw [hae.1, hae.2.1, hae.2.2]
          exact ⟨List.prefix_refl _, List.prefix_refl _, List.prefix_refl _⟩
        · rw [if_neg c3] at h
          by_cases c4 : entryMatch (trimL line) = true
          · rw [if_pos c4] at h
            cases hsp : splitColonSpace (trimL line) with
            | none =>
              rw [hsp] at h
              exact (PResult.noConfusion h)
            | some path =>
              rw [hsp] at h
              cases st with
              | initial =>
                have hp := ok_inj h
                injection hp with h1 h2
                subst h2
                rw [hae.1, hae.2.1, hae.2.2]
                exact ⟨List.prefix_refl _, List.prefix_refl _, List.prefix_refl _⟩
              | added =>
                have hp := ok_inj h
                injection hp with h1 h2
                subst h2
                refine ⟨?_, ?_, ?_⟩
                · show List.IsPrefix d.added_entries
                    ((applySummaries d (trimL line)).added_entries ++ [truncateString path])
                  rw [hae.1]
                  exact List.prefix_append _ _
                · show List.IsPrefix d.removed_entries
                    (applySummaries d (trimL line)).removed_entries
                  rw [hae.2.1]
                · show List.IsPrefix d.changed_entries
                    (applySummaries d (trimL line)).changed_entries
                  rw [hae.2.2]
              | removed =>
                have hp := ok_inj h
                injection hp with h1 h2
                subst h2
                refine ⟨?_, ?_, ?_⟩
                · show List.IsPrefix d.added_entries
                    (applySummaries d (trimL line)).added_entries
                  rw [hae.1]
                · show List.IsPrefix d.removed_entries
                    ((applySummaries d (trimL line)).removed_entries ++ [truncateString path])
                  rw [hae.2.1]
                  exact List.prefix_append _ _
                · show List.IsPrefix d.changed_entries
                    (applySummaries d (trimL line)).changed_entries
                  rw [hae.2.2]
              | changed =>
                have hp := ok_inj h
                injection hp with h1 h2
                subst h2
                refine ⟨?_, ?_, ?_⟩
                · show List.IsPrefix d.added_entries
                    (applySummaries d (trimL line)).added_entries
                  rw [hae.1]
                · show List.IsPrefix d.removed_entries
                    (applySummaries d (trimL line)).removed_entries
                  rw [hae.2.1]
                · show List.IsPrefix d.changed_entries
                    ((applySummaries d (trimL line)).changed_entries ++ [truncateString path])
                  rw [hae.2.2]
                  exact List.prefix_append _ _
          · rw [if_neg c4] at h
            have hp := ok_inj h
            injection hp with h1 h2
            subst h2
            rw [hae.1, hae.2.1, hae.2.2]
            exact ⟨List.prefix_refl _, List.prefix_refl _, List.prefix_refl _⟩

lemma run_entries (st : SState) (d : Data) (ls : List (List Char)) (st' : SState) (d' : Data)
    (h : runLines st d ls = .ok (st', d')) :
    List.IsPrefix d.added_entries d'.added_entries ∧
    List.IsPrefix d.removed_entries d'.removed_entries ∧
    List.IsPrefix d.changed_entries d'.changed_entries := by
  induction ls generalizing st d with
  | nil =>
    have h' : (PResult.ok (st, d) : PResult (SState × Data)) = .ok (st', d') := h
    have hp := ok_inj h'
    injection hp with h1 h2
    subst h2
    exact ⟨List.prefix_refl _, List.prefix_refl _, List.prefix_refl _⟩
  | cons l ls ih =>
    cases hs : stepLine st d l with
    | raised =>
      rw [runLines_cons, hs] at h
      exact (PResult.noConfusion h)
    | ok pr =>
      obtain ⟨st₁, d₁⟩ := pr
      rw [runLines_cons, hs] at h
      have h' : runLines st₁ d₁ ls = .ok (st', d') := h
      obtain ⟨p1, p2, p3⟩ := step_entries st d l st₁ d₁ hs
      obtain ⟨q1, q2, q3⟩ := ih st₁ d₁ h'
      exact ⟨p1.trans q1, p2.trans q2, p3.trans q3⟩

lemma runLines_append (st : SState) (d : Data) (p q : List (List Char)) :
    runLines st d (p ++ q) = match runLines st d p with
      | .raised => .raised
      | .ok (st', d') => runLines st' d' q := by
  induction p generalizing st d with
  | nil => rfl
  | cons l p ih =>
    rw [List.cons_append, runLines_cons, runLines_cons]
    cases stepLine st d l with
    | raised => rfl
    | ok pr =>
      obtain ⟨st₁, d₁⟩ := pr
      exact ih st₁ d₁

lemma aideJson_ok (lines : List (List Char)) (d : Data)
    (h : aideJson lines = .ok (some d)) :
    ∃ st', runLines SState.initial initData lines = .ok (st', d) := by
  cases lines with
  | nil =>
    have h' : (PResult.ok (none : Option Data) : PResult (Option Data)) = .ok (some d) := h
    exact absurd (ok_inj h') (by simp)
  | cons first rest =>
    simp only [aideJson] at h
    split at h
    · exact absurd (ok_inj h) (by simp)
    · split at h
      · exact absurd (ok_inj h) (by simp)
      · split at h
        · exact absurd (ok_inj h) (by simp)
        · split at h
          · exact absurd (ok_inj h) (by simp)
          · split at h
            · exact (PResult.noConfusion h)
            · rename_i st₁ d₁ heq
              have hd := Option.some.inj (ok_inj h)
              exact ⟨st₁, hd ▸ heq⟩

lemma lastVal_no_upd (k : SKey) (ls : List (List Char)) (cur : Option Nat)
    (h : ∀ l ∈ ls, ∀ v, summaryUpdate l ≠ some (k, v)) :
    lastVal k ls cur = cur := by
  induction ls generalizing cur with
  | nil => rfl
  | cons l ls ih =>
    rw [lastVal_cons]
    have h1 : updOne k cur l = cur := by
      unfold updOne
      cases hu : summaryUpdate l with
      | none => rfl
      | some kv =>
        obtain ⟨k', v⟩ := kv
        have hk : ¬(k' = k) := by
          intro he
          exact h l (List.mem_cons_self l ls) v (by rw [hu, he])
        simp [hk]
    rw [h1]
    exact ih cur (fun l' hl' v => h l' (List.mem_cons_of_mem l hl') v)

lemma updOne_isSome_iff (k : SKey) (cur : Option Nat) (l : List Char) :
    (updOne k cur l).isSome = true ↔
      cur.isSome = true ∨ ∃ v, summaryUpdate l = some (k, v) := by
  unfold updOne
  cases hu : summaryUpdate l with
  | none => simp
  | some kv =>
    obtain ⟨k', v'⟩ := kv
    by_cases hk : k' = k
    · subst hk
      simp
    · simp [hk]

lemma lastVal_isSome_iff (k : SKey) (ls : List (List Char)) (cur : Option Nat) :
    (lastVal k ls cur).isSome = true ↔
      cur.isSome = true ∨ ∃ l ∈ ls, ∃ v, summaryUpdate l = some (k, v) := by
  induction ls generalizing cur with
  | nil => simp [lastVal]
  | cons l ls ih =>
    rw [lastVal_cons, ih, updOne_isSome_iff]
    simp only [List.mem_cons]
    constructor
    · rintro ((hc | ⟨v, hv⟩) | ⟨l', hl', v, hv⟩)
      · exact Or.inl hc
      · exact Or.inr ⟨l, Or.inl rfl, v, hv⟩
      · exact Or.inr ⟨l', Or.inr hl', v, hv⟩
    · rintro (hc | ⟨l', hl' | hl', v, hv⟩)
      · exact Or.inl (Or.inl hc)
      · subst hl'
        exact Or.inl (Or.inr ⟨v, hv⟩)
      · exact Or.inr ⟨l', hl', v, hv⟩

end Aide

namespace Aide

lemma truncate_id (t : List Char) (ml : Nat) (h : t.length ≤ ml) :
    truncateString t ml = t := by
  unfold truncateString
  rw [if_neg (by omega)]

/-- C4: `truncateString` is the identity on every string of length at most
`max_length`; on longer strings it returns the first `max_length - 3`
characters followed by the 3-character marker `...`, so the result has length
exactly `max_length`; consequently it is idempotent.  Stated for every
`max_length ≥ 3`, which covers the default `MAX_LENGTH = 100`. -/
theorem C4_truncate (s : List Char) (ml : Nat) (h3 : 3 ≤ ml) :
    (s.length ≤ ml → truncateString s ml = s) ∧
    (ml < s.length → truncateString s ml = s.take (ml - 3) ++ "...".data ∧
      (truncateString s ml).length = ml) ∧
    truncateString (truncateString s ml) ml = truncateString s ml := by
  have hgt : ml < s.length → truncateString s ml = s.take (ml - 3) ++ "...".data := by
    intro hlt
    unfold truncateString
    rw [if_pos hlt, if_pos h3]
  have hlen : ml < s.length → (truncateString s ml).length = ml := by
    intro hlt
    rw [hgt hlt, List.length_append, List.length_take]
    have hdots : ("...".data).length = 3 := rfl
    rw [hdots]
    omega
  refine ⟨truncate_id s ml, fun hlt => ⟨hgt hlt, hlen hlt⟩, ?_⟩
  by_cases hle : s.length ≤ ml
  · rw [truncate_id s ml hle, truncate_id s ml hle]
  · have hlt : ml < s.length := by omega
    exact truncate_id (truncateString s ml) ml (by rw [hlen hlt])

/-- C4 witness: a concrete 101-character string is truncated to its first 97
characters plus `...`, with total length exactly 100. -/
theorem C4_witness :
    truncateString (List.replicate 101 'a') 100 =
      (List.replicate 101 'a').take 97 ++ "...".data ∧
    (truncateString (List.replicate 101 'a') 100).length = 100 :=
  (C4_truncate (List.replicate 101 'a') 100 (by decide)).2.1 (by decide)

/-- The structurally valid report on which the parser raises: the third line
matches the entry regex (`f`, a flag run, `:` immediately followed by `/`) but
contains no `": "` separator, so `stripped_line.split(": ", 1)[1]` raises
`IndexError`. -/
def reportC1 : List (List Char) :=
  ["Start timestamp: 0".data, "AIDE, version 1".data, "f+:/x".data, "End timestamp: 0".data]

/-- C1: the claim (a structurally valid report never makes `aideJson` raise,
whatever the remaining lines) is FALSE of the code: on `reportC1` the entry
regex accepts the line `f+:/x`, the `": "` split has no second component, and
the `IndexError` escapes.  The spec's "never raises, unparseable lines are
silently skipped" is the evident intent; the mismatch between the regex
(`:\s*\/`) and the extraction (`split(": ", 1)[1]`) is a slip in the code. -/
theorem C1_code_raises :
    entryMatch (trimL "f+:/x".data) = true ∧
    splitColonSpace (trimL "f+:/x".data) = none ∧
    aideJson reportC1 = PResult.raised := by decide

/-- A summary line: it matches the `Added entries` summary pattern and is not
(exactly) the section header `Added entries:`. -/
def lineC2 : List Char := "Added entries: 1".data

/-- C2 counterexample: the claim says a summary line leaves the section state
unchanged and that the state changes only on lines whose trimmed text is
exactly a section header.  But on `Added entries: 1` (a summary-pattern match,
trimmed text not equal to the header) the code records `added_summary = 1` AND
moves the state from INITIAL to IN_ADDED, because the transition test is
substring containment, not equality. -/
theorem C2_counterexample :
    stepLine SState.initial initData lineC2 =
      PResult.ok (SState.added, { initData with added_summary := some 1 }) ∧
    searchSummary lblAdded (trimL lineC2) = some 1 ∧
    ¬(trimL lineC2 = hdrAdded) := by decide

/-- C2 amended: on any line that records a summary value (so the line does not
contain `Start timestamp:`), the integer is stored under the corresponding
field, and the resulting section state is decided by substring containment of
the three header texts in the trimmed line (in the order Added, Removed,
Changed) — not by exact equality — falling back to the previous state. -/
theorem C2_amended (st : SState) (d : Data) (line : List Char) (st' : SState) (d' : Data)
    (k : SKey) (v : Nat)
    (hstep : stepLine st d line = .ok (st', d'))
    (hupd : summaryUpdate line = some (k, v)) :
    getKey d' k = some v ∧
    st' = (if containsSub hdrAdded (trimL line) then SState.added
           else if containsSub hdrRemoved (trimL line) then SState.removed
           else if containsSub hdrChanged (trimL line) then SState.changed
           else st) := by
  have hns : containsSub startTs line = false := by
    by_contra hc
    have ht : containsSub startTs line = true := by
      cases hx : containsSub startTs line
      · exact absurd hx hc
      · rfl
    unfold summaryUpdate at hupd
    rw [if_pos ht] at hupd
    exact Option.noConfusion hupd
  constructor
  · have h1 := getKey_step st d line st' d' k hstep
    rw [h1]
    unfold updOne
    rw [hupd]
    simp
  · have h2 := step_state st d line st' d' hstep
    rw [h2, if_neg (by simp [hns])]

/-- C2 amended witness: instantiated on the summary line `Added entries: 1`
processed in the INITIAL state. -/
theorem C2_amended_witness :
    getKey { initData with added_summary := some 1 } SKey.addedS = some 1 ∧
    SState.added = (if containsSub hdrAdded (trimL lineC2) then SState.added
      else if containsSub hdrRemoved (trimL lineC2) then SState.removed
      else if containsSub hdrChanged (trimL lineC2) then SState.changed
      else SState.initial) :=
  C2_amended SState.initial initData lineC2 SState.added
    { initData with added_summary := some 1 } SKey.addedS 1 (by decide) (by decide)

end Aide

namespace Aide

/-- C3: any input that is empty, or whose first line does not start with
`Start timestamp:`, or whose last line does not start with `End timestamp:`,
or that has fewer than two lines, or whose second line contains neither
banner, makes `aideJson` return the failure signal (`None`) — never a
partially populated record. -/
theorem C3_structural_gate (lines : List (List Char))
    (h : lines = [] ∨ ∃ f t, lines = f :: t ∧
      (startsWithL startTs f = false ∨
       startsWithL endTs (t.getLastD f) = false ∨
       t = [] ∨
       ∃ s t2, t = s :: t2 ∧ containsSub bannerDiff s = false ∧
         containsSub bannerVer s = false)) :
    aideJson lines = PResult.ok none := by
  rcases h with rfl | ⟨f, t, rfl, hc⟩
  · rfl
  · simp only [aideJson]
    by_cases c1 : startsWithL startTs f = false
    · rw [if_pos c1]
    · rw [if_neg c1]
      by_cases c2 : startsWithL endTs (t.getLastD f) = false
      · rw [if_pos c2]
      · rw [if_neg c2]
        rcases hc with h1 | h2 | h3 | ⟨s, t2, rfl, hb1, hb2⟩
        · exact absurd h1 c1
        · exact absurd h2 c2
        · subst h3
          rfl
        · show (if containsSub bannerDiff s = false ∧ containsSub bannerVer s = false then
              (PResult.ok none : PResult (Option Data))
            else match runLines SState.initial initData (f :: s :: t2) with
              | .raised => .raised
              | .ok (_, d) => .ok (some d)) = PResult.ok none
          rw [if_pos ⟨hb1, hb2⟩]

/-- C3 witness: a one-line input whose line does not start with
`Start timestamp:` is rejected. -/
theorem C3_witness : aideJson ["hello".data] = PResult.ok none :=
  C3_structural_gate ["hello".data]
    (Or.inr ⟨"hello".data, [], rfl, Or.inl (by decide)⟩)

/-- C5: an accepted entry line (no `Start timestamp:`, no header containment,
entry regex match, `": "` present) keeps the section state, and its extracted
path is appended — truncated — to exactly the sequence selected by the current
section state, the other two sequences being untouched; in the INITIAL state
nothing is appended.  The destination depends only on the state, never on the
path (which is universally quantified here). -/
theorem C5_entry_exclusive (st : SState) (d : Data) (line : List Char) (st' : SState) (d' : Data)
    (path : List Char)
    (h0 : containsSub startTs line = false)
    (h1 : containsSub hdrAdded (trimL line) = false)
    (h2 : containsSub hdrRemoved (trimL line) = false)
    (h3 : containsSub hdrChanged (trimL line) = false)
    (h4 : entryMatch (trimL line) = true)
    (h5 : splitColonSpace (trimL line) = some path)
    (hstep : stepLine st d line = .ok (st', d')) :
    st' = st ∧
    (st = SState.initial →
      d'.added_entries = d.added_entries ∧
      d'.removed_entries = d.removed_entries ∧
      d'.changed_entries = d.changed_entries) ∧
    (st = SState.added →
      d'.added_entries = d.added_entries ++ [truncateString path] ∧
      d'.removed_entries = d.removed_entries ∧
      d'.changed_entries = d.changed_entries) ∧
    (st = SState.removed →
      d'.removed_entries = d.removed_entries ++ [truncateString path] ∧
      d'.added_entries = d.added_entries ∧
      d'.changed_entries = d.changed_entries) ∧
    (st = SState.changed →
      d'.changed_entries = d.changed_entries ++ [truncateString path] ∧
      d'.added_entries = d.added_entries ∧
      d'.removed_entries = d.removed_entries) := by
  have hae := applySummaries_entries d (trimL line)
  unfold stepLine at hstep
  rw [if_neg (by simp [h0]), if_neg (by simp [h1]), if_neg (by simp [h2]),
    if_neg (by simp [h3]), if_pos h4, h5] at hstep
  cases st with
  | initial =>
    have hp := ok_inj hstep
    injection hp with g1 g2
    subst g2
    refine ⟨g1.symm, ?_, ?_, ?_, ?_⟩
    · intro _
      exact ⟨hae.1, hae.2.1, hae.2.2⟩
    · intro hco
      exact absurd hco (by decide)
    · intro hco
      exact absurd hco (by decide)
    · intro hco
      exact absurd hco (by decide)
  | added =>
    have hp := ok_inj hstep
    injection hp with g1 g2
    subst g2
    refine ⟨g1.symm, ?_, ?_, ?_, ?_⟩
    · intro hco
      exact absurd hco (by decide)
    · intro _
      refine ⟨?_, ?_, ?_⟩
      · show (applySummaries d (trimL line)).added_entries ++ [truncateString path] =
          d.added_entries ++ [truncateString path]
        rw [hae.1]
      · show (applySummaries d (trimL line)).removed_entries = d.removed_entries
        exact hae.2.1
      · show (applySummaries d (trimL line)).changed_entries = d.changed_entries
        exact hae.2.2
    · intro hco
      exact absurd hco (by decide)
    · intro hco
      exact absurd hco (by decide)
  | removed =>
    have hp := ok_inj hstep
    injection hp with g1 g2
    subst g2
    refine ⟨g1.symm, ?_, ?_, ?_, ?_⟩
    · intro hco
      exact absurd hco (by decide)
    · intro hco
      exact absurd hco (by decide)
    · intro _
      refine ⟨?_, ?_, ?_⟩
      · show (applySummaries d (trimL line)).removed_entries ++ [truncateString path] =
          d.removed_entries ++ [truncateString path]
        rw [hae.2.1]
      · show (applySummaries d (trimL line)).added_entries = d.added_entries
        exact hae.1
      · show (applySummaries d (trimL line)).changed_entries = d.changed_entries
        exact hae.2.2
    · intro hco
      exact absurd hco (by decide)
  | changed =>
    have hp := ok_inj hstep
    injection hp with g1 g2
    subst g2
    refine ⟨g1.symm, ?_, ?_, ?_, ?_⟩
    · intro hco
      exact absurd hco (by decide)
    · intro hco
      exact absurd hco (by decide)
    · intro hco
      exact absurd hco (by decide)
    · intro _
      refine ⟨?_, ?_, ?_⟩
      · show (applySummaries d (trimL line)).changed_entries ++ [truncateString path] =
          d.changed_entries ++ [truncateString path]
        rw [hae.2.2]
      · show (applySummaries d (trimL line)).added_entries = d.added_entries
        exact hae.1
      · show (applySummaries d (trimL line)).removed_entries = d.removed_entries
        exact hae.2.1

def lineC5 : List Char := "f++: /etc/passwd".data
def pathC5 : List Char := "/etc/passwd".data
def dC5 : Data := { initData with added_entries := ["/etc/passwd".data] }

/-- C5 witness: the entry line `f++: /etc/passwd` processed in the IN_ADDED
state appends `/etc/passwd` to the added sequence only. -/
theorem C5_witness :
    SState.added = SState.added ∧
    (SState.added = SState.initial →
      dC5.added_entries = initData.added_entries ∧
      dC5.removed_entries = initData.removed_entries ∧
      dC5.changed_entries = initData.changed_entries) ∧
    (SState.added = SState.added →
      dC5.added_entries = initData.added_entries ++ [truncateString pathC5] ∧
      dC5.removed_entries = initData.removed_entries ∧
      dC5.changed_entries = initData.changed_entries) ∧
    (SState.added = SState.removed →
      dC5.removed_entries = initData.removed_entries ++ [truncateString pathC5] ∧
      dC5.added_entries = initData.added_entries ∧
      dC5.changed_entries = initData.changed_entries) ∧
    (SState.added = SState.changed →
      dC5.changed_entries = initData.changed_entries ++ [truncateString pathC5] ∧
      dC5.added_entries = initData.added_entries ∧
      dC5.removed_entries = initData.removed_entries) :=
  C5_entry_exclusive SState.added initData lineC5 SState.added dC5 pathC5
    (by decide) (by decide) (by decide) (by decide) (by decide) (by decide) (by decide)

/-- C9: once the section state has left INITIAL it never returns to INITIAL
for the rest of the pass: after any further processed lines the state is still
a section state. -/
theorem C9_no_return (st : SState) (d : Data) (ls : List (List Char)) (st' : SState) (d' : Data)
    (h : runLines st d ls = .ok (st', d')) (hst : ¬(st = SState.initial)) :
    ¬(st' = SState.initial) := by
  induction ls generalizing st d with
  | nil =>
    have h' : (PResult.ok (st, d) : PResult (SState × Data)) = .ok (st', d') := h
    have hp := ok_inj h'
    injection hp with h1 h2
    subst h1
    exact hst
  | cons l ls ih =>
    cases hs : stepLine st d l with
    | raised =>
      rw [runLines_cons, hs] at h
      exact (PResult.noConfusion h)
    | ok pr =>
      obtain ⟨st₁, d₁⟩ := pr
      rw [runLines_cons, hs] at h
      have h' : runLines st₁ d₁ ls = .ok (st', d') := h
      refine ih st₁ d₁ h' ?_
      have hss := step_state st d l st₁ d₁ hs
      rw [hss]
      split
      · exact hst
      · split
        · decide
        · split
          · decide
          · split
            · decide
            · exact hst

def lsC9 : List (List Char) := ["f++: /a".data]
def dC9 : Data := { initData with added_entries := ["/a".data] }

/-- C9 witness: a run starting in IN_ADDED over an entry line ends in a
non-INITIAL state. -/
theorem C9_witness :
    runLines SState.added initData lsC9 = PResult.ok (SState.added, dC9) ∧
    ¬(SState.added = SState.initial) :=
  ⟨by decide, C9_no_return SState.added initData lsC9 SState.added dC9 (by decide) (by decide)⟩

end Aide

namespace Aide

/-- C6: processing a longer input only extends the three output sequences at
the end — the entries collected after any prefix of the input form a prefix of
the final sequences, so within each output sequence paths appear in the same
relative order as their source lines appear in the input. -/
theorem C6_order_preserved (st : SState) (d : Data) (p q : List (List Char))
    (st₁ : SState) (d₁ : Data) (st₂ : SState) (d₂ : Data)
    (hpq : runLines st d (p ++ q) = .ok (st₂, d₂))
    (hp : runLines st d p = .ok (st₁, d₁)) :
    List.IsPrefix d₁.added_entries d₂.added_entries ∧
    List.IsPrefix d₁.removed_entries d₂.removed_entries ∧
    List.IsPrefix d₁.changed_entries d₂.changed_entries := by
  have ha := runLines_append st d p q
  rw [hp] at ha
  have ha' : runLines st d (p ++ q) = runLines st₁ d₁ q := ha
  rw [ha'] at hpq
  exact run_entries st₁ d₁ q st₂ d₂ hpq

def pC6 : List (List Char) := ["Added entries:".data, "f++: /a".data]
def qC6 : List (List Char) := ["f++: /b".data]
def dC6a : Data := { initData with added_entries := ["/a".data] }
def dC6b : Data := { initData with added_entries := ["/a".data, "/b".data] }

/-- C6 witness: after the first two lines the added sequence is `[/a]`, a
prefix of the final `[/a, /b]`. -/
theorem C6_witness :
    List.IsPrefix dC6a.added_entries dC6b.added_entries ∧
    List.IsPrefix dC6a.removed_entries dC6b.removed_entries ∧
    List.IsPrefix dC6a.changed_entries dC6b.changed_entries :=
  C6_order_preserved SState.initial initData pC6 qC6 SState.added dC6a SState.added dC6b
    (by decide) (by decide)

lemma updOne_hit (k : SKey) (cur : Option Nat) (l : List Char) (v : Nat)
    (h : summaryUpdate l = some (k, v)) : updOne k cur l = some v := by
  unfold updOne
  rw [h]
  simp

def totalLine42 : List Char := "Total number of entries: 42".data

/-- A structurally valid report containing `Total number of entries: 42`
before the end marker, followed by a second total line with value 7. -/
def reportC7 : List (List Char) :=
  ["Start timestamp: 0".data, "AIDE, version 1".data, totalLine42,
   "Total number of entries: 7".data, "End timestamp: 0".data]

/-- C7 counterexample: the claim as stated — every structurally valid report
containing the line `Total number of entries: 42` before the end marker yields
`total_entries = 42` — is false of the code: `data[key] = int(...)` is a plain
overwrite, so in `reportC7` the later line `Total number of entries: 7` wins
and the returned record has `total_entries = 7`, not 42. -/
theorem C7_counterexample :
    aideJson reportC7 =
      PResult.ok (some { initData with timestamp := true, total_entries := some 7 }) ∧
    ¬(({ initData with timestamp := true, total_entries := some 7 } : Data).total_entries
        = some 42) := by decide

/-- C7 amended: whenever a report that parses into a record contains the line
`Total number of entries: 42` — wherever it sits, so whatever section state is
active when it is read — and no later line of the report records the total
(the last recording line wins otherwise), the returned record has
`total_entries = 42`. -/
theorem C7_total_recorded (p q : List (List Char)) (d : Data)
    (h : aideJson (p ++ totalLine42 :: q) = .ok (some d))
    (hq : ∀ l ∈ q, ∀ v, summaryUpdate l ≠ some (SKey.total, v)) :
    d.total_entries = some 42 := by
  obtain ⟨st', hrun⟩ := aideJson_ok _ _ h
  have hk := getKey_run SState.initial initData _ st' d SKey.total hrun
  have hinit : getKey initData SKey.total = none := rfl
  rw [hinit, lastVal_append, lastVal_cons] at hk
  rw [updOne_hit SKey.total (lastVal SKey.total p none) totalLine42 42 (by decide)] at hk
  rw [lastVal_no_upd SKey.total q (some 42) hq] at hk
  exact hk

def pC7 : List (List Char) := ["Start timestamp: 0".data, "AIDE, version 1".data]
def qC7 : List (List Char) := ["End timestamp: 0".data]
def dC7 : Data := { initData with timestamp := true, total_entries := some 42 }

/-- C7 witness: the concrete report `pC7 ++ totalLine42 :: qC7` yields
`total_entries = 42`. -/
theorem C7_witness : dC7.total_entries = some 42 :=
  C7_total_recorded pC7 qC7 dC7 (by decide)
    (by
      intro l hl v hv
      simp only [qC7, List.mem_singleton] at hl
      subst hl
      rw [show summaryUpdate "End timestamp: 0".data = none from by decide] at hv
      exact Option.noConfusion hv)

/-- A line on which both the Total and the Added summary patterns match: the
loop records the Total value and `break`s, so `added_summary` stays absent. -/
def lineC8 : List Char := "Total number of entries: 5 Added entries: 3".data

def reportC8 : List (List Char) :=
  ["Start timestamp: 0".data, "AIDE, version 1".data, lineC8, "End timestamp: 0".data]

def dC8 : Data := { initData with timestamp := true, total_entries := some 5 }

/-- C8 counterexample: the claim's "present if and only if some line matched
its summary pattern" fails right to left: in `reportC8` the `Added entries`
pattern matches on `lineC8` (with value 3), yet the returned record has no
`added_summary` — the summary loop `break`s after the earlier `Total number of
entries` label matches on the same line. -/
theorem C8_counterexample :
    searchSummary lblAdded (trimL lineC8) = some 3 ∧
    aideJson reportC8 = PResult.ok (some dC8) ∧
    dC8.added_summary = none := by decide

/-- C8 amended: in every returned record, a summary field is present iff some
line (not containing `Start timestamp:`) has that field's label as the first
matching label of the summary loop (order: Total, Added, Removed, Changed);
and the serialized JSON object contains the field's key exactly when the field
is present — an absent field's key is omitted entirely, never emitted as null. -/
theorem C8_amended (lines : List (List Char)) (d : Data) (k : SKey)
    (h : aideJson lines = .ok (some d)) :
    ((getKey d k).isSome = true ↔ ∃ l ∈ lines, ∃ v, summaryUpdate l = some (k, v)) ∧
    jsonHasKey d (keyName k) = (getKey d k).isSome := by
  obtain ⟨st', hrun⟩ := aideJson_ok lines d h
  have hk := getKey_run SState.initial initData lines st' d k hrun
  have hinit : getKey initData k = none := by cases k <;> rfl
  rw [hinit] at hk
  constructor
  · rw [hk, lastVal_isSome_iff]
    simp
  · cases k with
    | total =>
      show jsonHasKey d "total_entries" = d.total_entries.isSome
      unfold jsonHasKey
      rw [if_neg (by decide), if_pos rfl]
    | addedS =>
      show jsonHasKey d "added_summary" = d.added_summary.isSome
      unfold jsonHasKey
      rw [if_neg (by decide), if_neg (by decide), if_pos rfl]
    | removedS =>
      show jsonHasKey d "removed_summary" = d.removed_summary.isSome
      unfold jsonHasKey
      rw [if_neg (by decide), if_neg (by decide), if_neg (by decide), if_pos rfl]
    | changedS =>
      show jsonHasKey d "changed_summary" = d.changed_summary.isSome
      unfold jsonHasKey
      rw [if_neg (by decide), if_neg (by decide), if_neg (by decide), if_neg (by decide),
        if_pos rfl]

def reportW8 : List (List Char) :=
  ["Start timestamp: 0".data, "AIDE, version 1".data, "Total number of entries: 5".data,
   "End timestamp: 0".data]

def dW8 : Data := { initData with timestamp := true, total_entries := some 5 }

/-- C8 amended witness: in the record parsed from `reportW8` the total field
is present and its JSON key is emitted. -/
theorem C8_amended_witness :
    (getKey dW8 SKey.total).isSome = true ∧ jsonHasKey dW8 (keyName SKey.total) = true := by
  have hmain := C8_amended reportW8 dW8 SKey.total (by decide)
  have h1 := hmain.1.mpr ⟨"Total number of entries: 5".data, by decide, 5, by decide⟩
  exact ⟨h1, by rw [hmain.2, h1]⟩

/-- C10: when two lines record the same summary field, the later one
overwrites the earlier: if no line after `lb` records field `k`, the returned
record holds `lb`'s value, whatever `la` recorded earlier. -/
theorem C10_overwrite (p q r : List (List Char)) (la lb : List Char) (d : Data)
    (k : SKey) (v₁ v₂ : Nat)
    (h : aideJson (p ++ la :: q ++ lb :: r) = .ok (some d))
    (ha : summaryUpdate la = some (k, v₁))
    (hb : summaryUpdate lb = some (k, v₂))
    (hr : ∀ l ∈ r, ∀ v, summaryUpdate l ≠ some (k, v)) :
    getKey d k = some v₂ := by
  obtain ⟨st', hrun⟩ := aideJson_ok _ _ h
  have hk := getKey_run SState.initial initData _ st' d k hrun
  have hinit : getKey initData k = none := by cases k <;> rfl
  rw [hinit, lastVal_append, lastVal_cons, lastVal_append, lastVal_cons] at hk
  rw [updOne_hit k (lastVal k q (updOne k (lastVal k p none) la)) lb v₂ hb] at hk
  rw [lastVal_no_upd k r (some v₂) hr] at hk
  exact hk

def pC10 : List (List Char) := ["Start timestamp: 0".data, "AIDE, version 1".data]
def laC10 : List Char := "Total number of entries: 1".data
def lbC10 : List Char := "Total number of entries: 7".data
def rC10 : List (List Char) := ["End timestamp: 0".data]
def dC10 : Data := { initData with timestamp := true, total_entries := some 7 }

/-- C10 witness: two total lines, values 1 then 7; the record holds 7. -/
theorem C10_witness : getKey dC10 SKey.total = some 7 :=
  C10_overwrite pC10 [] rC10 laC10 lbC10 dC10 SKey.total 1 7 (by decide) (by decide) (by decide)
    (by
      intro l hl v hv
      simp only [rC10, List.mem_singleton] at hl
      subst hl
      rw [show summaryUpdate "End timestamp: 0".data = none from by decide] at hv
      exact Option.noConfusion hv)

end Aide
